import Mathlib

/-!
Verification of the document exporter (`src/services/exportService.ts`).

The source file contains two export paths: the primary path parses the first
content block's HTML and translates the DOM tree into docx paragraphs; the
alternate "flat" path walks the whole block list (text / image / video blocks).
Both are embedded below, together with the resource resolver (`getFileBuffer`),
the inline run builder (`parseNodeContent` and its inner `walk` closure), the
list translation of `processBlockNode`, the numbering configuration, and a
discrete event model of `captureVideoFrame`.

Browser facilities are modelled as oracles: `fetchFn` stands for `fetch` on a
non-data URL (returning `none` when any step of the fetch throws), `parse`
stands for `DOMParser.parseFromString` returning the body's child nodes, and
`capture` stands for video frame capture in the flat path.
-/

namespace DocxExport

/-- Byte buffers (`Uint8Array`) are modelled as lists of byte values. -/
abbrev Bytes := List Nat

/-- DOM nodes as produced by `DOMParser`: text nodes and element nodes.
`tag` models the DOM `tagName`, which is uppercase for HTML elements. -/
inductive HNode where
  | text (s : String)
  | elem (tag : String) (attrs : List (String × String)) (children : List HNode)

/-- The child node list of a DOM node (`node.childNodes`); text nodes have none. -/
def childNodes : HNode → List HNode
  | .text _ => []
  | .elem _ _ cs => cs

/-- Attribute lookup, modelling `node.getAttribute(name)`. -/
def getAttr (attrs : List (String × String)) (name : String) : Option String :=
  (attrs.find? (fun a => a.1 == name)).map (fun a => a.2)

/-- JS `toUpperCase` over the ASCII range, character by character (Lean's
built-in `String.toUpper` is equivalent on this range but does not reduce
inside the kernel). -/
def upper (s : String) : String := ⟨s.data.map Char.toUpper⟩

/-- Whether `s` starts with the given pattern (`String.prototype.startsWith`). -/
def strStartsWith (s pat : String) : Bool :=
  s.data.take pat.data.length == pat.data

/-- JS `String.prototype.split` with a single-character separator; splits at
every occurrence, keeping empty pieces. -/
def splitAux (sep : Char) : List Char → List Char → List String
  | [], acc => [⟨acc.reverse⟩]
  | c :: cs, acc =>
    if c == sep then ⟨acc.reverse⟩ :: splitAux sep cs []
    else splitAux sep cs (c :: acc)

/-- Split a string at every occurrence of the separator character. -/
def splitOnChar (sep : Char) (s : String) : List String := splitAux sep s.data []

/-- Whitespace removed by JS `String.prototype.trim` (ASCII part). -/
def isJsSpace (c : Char) : Bool :=
  c == ' ' || c == '\t' || c == '\n' || c == '\r' || c == '\x0b' || c == '\x0c'

/-- JS `String.prototype.trim`. -/
def jsTrim (s : String) : String :=
  ⟨((s.data.dropWhile isJsSpace).reverse.dropWhile isJsSpace).reverse⟩

/-- Value of one base64 alphabet character; `none` for characters outside the
alphabet (padding included, which is stripped separately). -/
def b64Val (c : Char) : Option Nat :=
  if 'A' ≤ c ∧ c ≤ 'Z' then some (c.toNat - 65)
  else if 'a' ≤ c ∧ c ≤ 'z' then some (c.toNat - 97 + 26)
  else if '0' ≤ c ∧ c ≤ '9' then some (c.toNat - 48 + 52)
  else if c = '+' then some 62
  else if c = '/' then some 63
  else none

/-- ASCII whitespace removed by the forgiving-base64 decode used by `atob`. -/
def isB64Ws (c : Char) : Bool :=
  c == ' ' || c == '\t' || c == '\n' || c == '\r' || c == '\x0c'

/-- Strip up to two trailing padding characters when the length is a multiple
of four, as forgiving-base64 does. -/
def stripPad (cs : List Char) : List Char :=
  if cs.length % 4 = 0 then
    match cs.reverse with
    | '=' :: '=' :: rest => rest.reverse
    | '=' :: rest => rest.reverse
    | _ => cs
  else cs

/-- Reassemble bytes from the 6-bit values of a base64 string; a trailing group
of two or three characters yields one or two bytes, excess bits are discarded. -/
def b64Bytes : List Nat → Bytes
  | a :: b :: c :: d :: rest =>
      (a * 4 + b / 16) :: ((b % 16) * 16 + c / 4) :: ((c % 4) * 64 + d) :: b64Bytes rest
  | [a, b] => [a * 4 + b / 16]
  | [a, b, c] => [a * 4 + b / 16, (b % 16) * 16 + c / 4]
  | _ => []

/-- JS `atob` (forgiving-base64 decode); `none` where `atob` throws
`InvalidCharacterError`. -/
def atob (s : String) : Option Bytes :=
  let cs := stripPad (s.toList.filter (fun c => !(isB64Ws c)))
  if cs.length % 4 = 1 then none
  else
    let vals := cs.map b64Val
    if vals.any (fun v => v.isNone) then none
    else some (b64Bytes (vals.map (fun v => v.getD 0)))

/-- `getFileBuffer(url)`: a `data:` URL is split at commas and the second piece
is decoded with `atob` (when there is no second piece, `atob` receives the
string "undefined", whose length is 9 ≡ 1 mod 4, so it throws and the catch
returns null); any other URL goes through `fetch`, modelled by `fetchFn`.
Every thrown error is caught and turned into null, i.e. `none`. -/
def getFileBuffer (fetchFn : String → Option Bytes) (url : String) : Option Bytes :=
  if strStartsWith url "data:" then
    match (splitOnChar ',' url)[1]? with
    | some b64 => atob b64
    | none => none
  else fetchFn url

/-- The style accumulator threaded through `parseNodeContent`'s `walk` closure.
The JS object uses optional fields that are only ever set to `true`, so absent
and `false` coincide. -/
structure StyleAcc where
  bold : Bool := false
  italics : Bool := false
  underline : Bool := false
deriving DecidableEq, Repr

/-- The wrapper-element update of the style accumulator: STRONG/B set bold,
EM/I set italics, U sets underline; `tagName` is already uppercased. -/
def applyTag (styles : StyleAcc) (tagName : String) : StyleAcc :=
  let s1 := if tagName == "STRONG" || tagName == "B" then { styles with bold := true } else styles
  let s2 := if tagName == "EM" || tagName == "I" then { s1 with italics := true } else s1
  if tagName == "U" then { s2 with underline := true } else s2

/-- Options of a docx `TextRun` as constructed by the two export paths. -/
structure TextRunProps where
  text : String
  bold : Bool := false
  italics : Bool := false
  underline : Bool := false
  size : Option Nat := none
  color : Option String := none
deriving DecidableEq, Repr

/-- A docx run: a text run or an image run with fixed display size. -/
inductive Run where
  | text (props : TextRunProps)
  | image (data : Bytes) (width : Nat) (height : Nat)
deriving DecidableEq, Repr

/-- The `TextRun` built for a text node under the accumulator `s`. -/
def mkTextRun (t : String) (s : StyleAcc) : Run :=
  Run.text { text := t, bold := s.bold, italics := s.italics, underline := s.underline }

mutual
/-- The `walk` closure of `parseNodeContent`: a text node with non-empty
content emits one `TextRun` stamped with the current accumulator; an IMG
element resolves its `src` and emits an `ImageRun` at 550×350 on success and
nothing on failure; any other element extends the accumulator by its tag and
walks its children; non-element non-text nodes are ignored. -/
def walk (fetchFn : String → Option Bytes) : HNode → StyleAcc → List Run
  | .text s, styles => if s ≠ "" then [mkTextRun s styles] else []
  | .elem tag attrs children, styles =>
    let tagName := upper tag
    if tagName == "IMG" then
      match getAttr attrs "src" with
      | some src =>
        match getFileBuffer fetchFn src with
        | some buffer => [Run.image buffer 550 350]
        | none => []
      | none => []
    else
      walkList fetchFn children (applyTag styles tagName)

/-- Sequential walk over sibling nodes (the `for` loop over `childNodes`). -/
def walkList (fetchFn : String → Option Bytes) : List HNode → StyleAcc → List Run
  | [], _ => []
  | c :: cs, styles => walk fetchFn c styles ++ walkList fetchFn cs styles
end

/-- `parseNodeContent(element)`: walk each child with an empty accumulator. -/
def parseNodeContent (fetchFn : String → Option Bytes) (element : HNode) : List Run :=
  walkList fetchFn (childNodes element) {}

/-- A docx `Paragraph` as constructed by the export paths, with exactly the
option fields the source sets. -/
structure Para where
  text : Option String := none
  children : List Run := []
  heading : Option Nat := none
  alignment : Option String := none
  bullet : Option Nat := none
  numbering : Option (String × Nat) := none
  thematicBreak : Bool := false
  indentLeft : Option Nat := none
  spacingBefore : Option Nat := none
  spacingAfter : Option Nat := none
deriving DecidableEq, Repr

/-- The `headingMap` lookup: H1–H6 map to heading levels 1–6. -/
def headingLevelOf (tagName : String) : Option Nat :=
  if tagName == "H1" then some 1
  else if tagName == "H2" then some 2
  else if tagName == "H3" then some 3
  else if tagName == "H4" then some 4
  else if tagName == "H5" then some 5
  else if tagName == "H6" then some 6
  else none

/-- The predicate of the nested-list search inside the LI loop:
`child instanceof HTMLElement && (child.tagName === 'UL' || child.tagName === 'OL')`. -/
def isListTag : HNode → Bool
  | .elem tag _ _ => tag == "UL" || tag == "OL"
  | _ => false

/-- The paragraph built for one LI: bullet with level for unordered lists,
numbering reference with level for ordered lists. -/
def liPara (runs : List Run) (isOrdered : Bool) (ref : String) (level : Nat) : Para :=
  { children := runs,
    bullet := if isOrdered then none else some level,
    numbering := if isOrdered then some (ref, level) else none,
    spacingAfter := some 100 }

mutual
/-- `processBlockNode(node, listContext)` of the primary path. Returns the
paragraphs it appends to `docChildren` (the mutable push becomes list
concatenation). `listContext` carries the enclosing list's reference and level;
absent context makes the level `(-1) + 1 = 0`. -/
def processBlockNode (fetchFn : String → Option Bytes) :
    HNode → Option (String × Nat) → List Para
  | .text _, _ => []
  | .elem tag attrs children, listContext =>
    let tagName := upper tag
    match headingLevelOf tagName with
    | some lvl =>
      [{ children := walkList fetchFn children {}, heading := some lvl,
         spacingBefore := some 200, spacingAfter := some 200 }]
    | none =>
      if tagName == "P" || tagName == "DIV" then
        let cs := walkList fetchFn children {}
        if cs.length > 0 then
          [{ children := cs, spacingAfter := some 120 }]
        else []
      else if tagName == "UL" || tagName == "OL" then
        let isOrdered := tagName == "OL"
        let level := match listContext with
          | some c => c.2 + 1
          | none => 0
        let ref := if isOrdered then "main-numbering" else "bullet-numbering"
        processLis fetchFn children isOrdered ref level
      else if tagName == "BLOCKQUOTE" then
        [{ children := walkList fetchFn children {}, indentLeft := some 720,
           spacingBefore := some 200, spacingAfter := some 200 }]
      else if tagName == "HR" then
        [{ thematicBreak := true, spacingBefore := some 400, spacingAfter := some 400 }]
      else if tagName == "IMG" then
        match getAttr attrs "src" with
        | some src =>
          match getFileBuffer fetchFn src with
          | some buffer =>
            [{ children := [Run.image buffer 550 350],
               spacingBefore := some 200, spacingAfter := some 200 }]
          | none => []
        | none => []
      else []

/-- The loop over a list element's children. The source iterates
`node.children` (element children) and skips anything whose tag is not LI; a
text child is never an element, so iterating all child nodes and skipping
non-elements is the same. -/
def processLis (fetchFn : String → Option Bytes) :
    List HNode → Bool → String → Nat → List Para
  | [], _, _, _ => []
  | li :: rest, isOrdered, ref, level =>
    processLi fetchFn li isOrdered ref level ++ processLis fetchFn rest isOrdered ref level

/-- One LI of the loop body: the first nested UL/OL child node is looked up
(`Array.from(liElement.childNodes).find(...)`); a clone of the LI with that
first nested list removed provides the leaf content (`liClone.removeChild`,
i.e. erasing the first child satisfying the nested-list predicate); one list
paragraph is emitted from the leaf content, then the nested list — when
present — is processed with this list's reference and level as context,
immediately after. The recursion into the first list-tagged child is written
positionally in `processFirstNested`; `processFirstNested_eq_find?` below
proves it equal to recursing on `cc.find? isListTag`. -/
def processLi (fetchFn : String → Option Bytes) :
    HNode → Bool → String → Nat → List Para
  | .elem tag _ cc, isOrdered, ref, level =>
    if upper tag == "LI" then
      let leafContent := if cc.any isListTag then cc.eraseP isListTag else cc
      liPara (walkList fetchFn leafContent {}) isOrdered ref level
        :: processFirstNested fetchFn cc ref level
    else []
  | _, _, _, _ => []

/-- Process the first child satisfying the nested-list predicate, if any,
under the enclosing list's context. -/
def processFirstNested (fetchFn : String → Option Bytes) :
    List HNode → String → Nat → List Para
  | [], _, _ => []
  | c :: cs, ref, level =>
    if isListTag c then processBlockNode fetchFn c (some (ref, level))
    else processFirstNested fetchFn cs ref level
end

/-- The synthetic title paragraph pushed first by the primary path;
an empty title falls back to the fixed placeholder. -/
def titlePara (title : String) : Para :=
  { text := some (if title == "" then "제목 없음" else title),
    heading := some 1, alignment := some "left", spacingAfter := some 400 }

/-- The loop over the parsed body's child nodes. -/
def exportBlocks (fetchFn : String → Option Bytes) (bodyNodes : List HNode) : List Para :=
  bodyNodes.flatMap (fun n => processBlockNode fetchFn n none)

/-- `ContentBlock` from `types.ts`. -/
structure ContentBlock where
  id : String
  type : String
  content : String
  mimeType : Option String := none
deriving DecidableEq, Repr

/-- The primary `exportDocToDocx(title, blocks)`: the HTML content is
`blocks[0]?.content || ''` — only the first block's content is parsed —
and the document children are the title paragraph followed by the translated
body nodes. `parse` models `DOMParser.parseFromString(·, 'text/html')`
returning the body's child nodes. -/
def exportDocToDocx (parse : String → List HNode) (fetchFn : String → Option Bytes)
    (title : String) (blocks : List ContentBlock) : List Para :=
  let htmlContent := (blocks.head?.map (fun b => b.content)).getD ""
  titlePara title :: exportBlocks fetchFn (parse htmlContent)

/-- One level entry of the numbering configuration. -/
structure NumberingLevel where
  level : Nat
  format : String
  text : String
  alignment : String
deriving DecidableEq, Repr

/-- The `main-numbering` levels configured on the `Document`: decimal,
lower-letter, lower-roman, each start-aligned. -/
def mainNumberingLevels : List NumberingLevel :=
  [ { level := 0, format := "decimal", text := "%1.", alignment := "start" },
    { level := 1, format := "lowerLetter", text := "%2.", alignment := "start" },
    { level := 2, format := "lowerRoman", text := "%3.", alignment := "start" } ]

/-- The references explicitly declared in the `Document` numbering config. -/
def numberingConfigRefs : List String := ["main-numbering"]

/-- The configured level entry for a given level, if any. -/
def levelStyle (level : Nat) : Option NumberingLevel :=
  mainNumberingLevels.find? (fun l => l.level == level)

/-- Modelled from the spec: the package serializer (the external docx library,
not part of this repository's sources) maps a paragraph's `bullet` field to its
single shared built-in bullet numbering definition, and keeps an explicit
`numbering` field's reference unchanged. -/
def numberingRefOf (p : Para) : Option String :=
  match p.numbering with
  | some rl => some rl.1
  | none => if p.bullet.isSome then some "default-bullet-numbering" else none

/-- A fetch oracle under which every non-data URL fails. -/
def noFetch : String → Option Bytes := fun _ => none

namespace Flat

mutual
/-- The text content of a node (`Node.textContent`): concatenation of all
descendant text node data in document order. -/
def nodeTextContent : HNode → String
  | .text s => s
  | .elem _ _ cs => nodesTextContent cs

/-- Text content of a node list. -/
def nodesTextContent : List HNode → String
  | [] => ""
  | c :: cs => nodeTextContent c ++ nodesTextContent cs
end

/-- `cleanHtml(html)`: parse the HTML and take the body's text content. -/
def cleanHtml (parse : String → List HNode) (html : String) : String :=
  nodesTextContent (parse html)

/-- The title paragraph of the flat export path, with its own fallback. -/
def titlePara (title : String) : Para :=
  { text := some (if title == "" then "Untitled Document" else title),
    heading := some 1, alignment := some "left", spacingAfter := some 400 }

/-- The label used in a video placeholder: `block.mimeType || 'Video'`. -/
def mimeTypeLabel (m : Option String) : String :=
  match m with
  | some s => if s == "" then "Video" else s
  | none => "Video"

/-- The paragraphs contributed by one `ContentBlock` in the flat export loop:
a text block with non-blank cleaned content gives one sized text paragraph; an
image block whose buffer resolves gives one 500×350 image paragraph and
otherwise nothing; a video block whose frame capture succeeds gives a snapshot
label paragraph plus a 500×350 image paragraph, and otherwise a textual
placeholder paragraph carrying the declared media type. `capture` models
`captureVideoFrame`. -/
def blockParas (parse : String → List HNode) (fetchFn : String → Option Bytes)
    (capture : String → Option Bytes) (block : ContentBlock) : List Para :=
  if block.type == "text" then
    let text := jsTrim (cleanHtml parse block.content)
    if text ≠ "" then
      [{ children := [Run.text { text := text, size := some 24 }], spacingAfter := some 300 }]
    else []
  else if block.type == "image" then
    match getFileBuffer fetchFn block.content with
    | some buffer =>
      [{ children := [Run.image buffer 500 350],
         spacingAfter := some 300, spacingBefore := some 100 }]
    | none => []
  else if block.type == "video" then
    match capture block.content with
    | some buffer =>
      [ { children := [Run.text { text := "[Video Snapshot]", italics := true,
                                  color := some "666666" }],
          spacingAfter := some 100 },
        { children := [Run.image buffer 500 350], spacingAfter := some 300 } ]
    | none =>
      [{ text := some ("[Video Attachment: " ++ mimeTypeLabel block.mimeType ++ "]"),
         spacingAfter := some 300 }]
  else []

/-- The flat `exportDocToDocx(title, blocks)`: the title paragraph followed by
each block's paragraphs in order. -/
def exportDocToDocx (parse : String → List HNode) (fetchFn : String → Option Bytes)
    (capture : String → Option Bytes) (title : String) (blocks : List ContentBlock) :
    List Para :=
  titlePara title :: blocks.flatMap (blockParas parse fetchFn capture)

/-- Events a video element can dispatch while `captureVideoFrame` waits. -/
inductive VideoEvent where
  | loadeddata
  | error
deriving DecidableEq, Repr

/-- The environment of one `captureVideoFrame` call: the events the video
resource dispatches (with their times in milliseconds), whether the canvas 2d
context is available, and the result of `canvas.toBlob`. -/
structure VideoEnv where
  events : List (Nat × VideoEvent)
  ctxAvailable : Bool := true
  toBlobResult : Option Bytes := none
deriving DecidableEq, Repr

/-- The earliest entry of an event list; ties keep the first listed. -/
def firstEvent (events : List (Nat × VideoEvent)) : Option (Nat × VideoEvent) :=
  events.foldl
    (fun acc e =>
      match acc with
      | none => some e
      | some a => if e.1 < a.1 then some e else acc)
    none

/-- Discrete-event model of `captureVideoFrame`: the promise resolves exactly
once, at the earliest of the dispatched events and the 5000 ms timeout. The
handlers clear the timeout, so an event strictly before 5000 ms wins; with no
event before the bound, the timeout resolves null at 5000 ms. An error event
resolves null; a loadeddata event draws the frame and resolves the `toBlob`
bytes when the 2d context is available and `toBlob` produces a blob (the later
blob materialization is modelled as immediate), and null otherwise. Every path
resolves (never rejects), so the result is a total pair of time and value. -/
def captureVideoFrame (env : VideoEnv) : Nat × Option Bytes :=
  match firstEvent (env.events.filter (fun e => e.1 < 5000)) with
  | none => (5000, none)
  | some (t, .error) => (t, none)
  | some (t, .loadeddata) =>
    if env.ctxAvailable then
      match env.toBlobResult with
      | some b => (t, some b)
      | none => (t, none)
    else (t, none)

end Flat

/-- The position-indexed accumulator of the spec's description of the inline
run builder: the style in force at a leaf is the root accumulator extended by
each wrapper tag on the path down to the leaf (`p` is the list of child
indices from the fragment node to the leaf); paths through an IMG element are
not traversed. -/
def accumAt : HNode → List Nat → StyleAcc → Option (String × StyleAcc)
  | .text t, [], s => some (t, s)
  | .elem tag _ cs, i :: p, s =>
    if upper tag == "IMG" then none
    else
      match cs.get? i with
      | some c => accumAt c p (applyTag s (upper tag))
      | none => none
  | _, _, _ => none

/-- Body of the end-to-end example: `<h1>Intro</h1><p>Hello <strong>World</strong></p>`
`<ul><li>One</li><li>Two<ul><li>Nested</li></ul></li></ul>` as parsed by the DOM. -/
def exampleBody : List HNode :=
  [ .elem "H1" [] [.text "Intro"],
    .elem "P" [] [.text "Hello ", .elem "STRONG" [] [.text "World"]],
    .elem "UL" []
      [ .elem "LI" [] [.text "One"],
        .elem "LI" [] [.text "Two", .elem "UL" [] [.elem "LI" [] [.text "Nested"]]] ] ]

/-- An ordered list nested four levels deep; its innermost item sits at
numbering level 3, beyond the configured levels. -/
def deepOrderedList : HNode :=
  .elem "OL" [] [.elem "LI" [] [.text "a",
    .elem "OL" [] [.elem "LI" [] [.text "b",
      .elem "OL" [] [.elem "LI" [] [.text "c",
        .elem "OL" [] [.elem "LI" [] [.text "d"]]]]]]]]

/-- A list item with two nested list children. -/
def twoNestedLists : HNode :=
  .elem "UL" []
    [ .elem "LI" []
        [ .text "A",
          .elem "UL" [] [.elem "LI" [] [.text "B"]],
          .elem "UL" [] [.elem "LI" [] [.text "C"]] ] ]

/-- Two independent top-level bulleted lists. -/
def twoBulletLists : List HNode :=
  [ .elem "UL" [] [.elem "LI" [] [.text "x"]],
    .elem "UL" [] [.elem "LI" [] [.text "y"]] ]

/-- An embedded image reference whose base64 body is malformed. -/
def badDataUrl : String := "data:image/png;base64,@@@@"

/-- Modelled from the spec: the bullet numbering definition lives in the
external docx library, not in this repository's sources; one marker style
applies at every depth, only the indentation varies with the level. -/
def bulletLevelStyle (_level : Nat) : String := "bullet"

theorem walkList_append (fetchFn : String → Option Bytes) (xs ys : List HNode)
    (s : StyleAcc) :
    walkList fetchFn (xs ++ ys) s = walkList fetchFn xs s ++ walkList fetchFn ys s := by
  induction xs with
  | nil => simp [walkList]
  | cons c cs ih => simp [walkList, ih]

theorem mem_walkList {fetchFn : String → Option Bytes} {cs : List HNode}
    {st : StyleAcc} {r : Run} :
    r ∈ walkList fetchFn cs st ↔ ∃ c ∈ cs, r ∈ walk fetchFn c st := by
  induction cs with
  | nil => simp [walkList]
  | cons c cs ih => simp [walkList, ih, List.mem_append]

theorem applyTag_bold (s : StyleAcc) (t : String) :
    (applyTag s t).bold = (s.bold || (t == "STRONG" || t == "B")) := by
  simp only [applyTag]
  split <;> split <;> split <;> simp_all

theorem applyTag_italics (s : StyleAcc) (t : String) :
    (applyTag s t).italics = (s.italics || (t == "EM" || t == "I")) := by
  simp only [applyTag]
  split <;> split <;> split <;> simp_all

theorem applyTag_underline (s : StyleAcc) (t : String) :
    (applyTag s t).underline = (s.underline || (t == "U")) := by
  simp only [applyTag]
  split <;> split <;> split <;> simp_all

theorem mem_walkList_of_get? {fetchFn : String → Option Bytes} {cs : List HNode}
    {st : StyleAcc} {r : Run} {i : Nat} {c : HNode}
    (hg : cs.get? i = some c) (hm : r ∈ walk fetchFn c st) :
    r ∈ walkList fetchFn cs st :=
  mem_walkList.mpr ⟨c, List.get?_mem hg, hm⟩

theorem walk_style_mono (fetchFn : String → Option Bytes) :
    ∀ k : Nat, ∀ node : HNode, sizeOf node ≤ k → ∀ s props,
      Run.text props ∈ walk fetchFn node s →
      (s.bold = true → props.bold = true) ∧
      (s.italics = true → props.italics = true) ∧
      (s.underline = true → props.underline = true) := by
  intro k
  induction k using Nat.strong_induction_on with
  | _ k ih =>
    intro node hk s props hmem
    match node with
    | .text t =>
      simp only [walk] at hmem
      split at hmem
      · simp only [mkTextRun, List.mem_singleton, Run.text.injEq] at hmem
        subst hmem
        exact ⟨fun h => h, fun h => h, fun h => h⟩
      · simp at hmem
    | .elem tag attrs children =>
      simp only [walk] at hmem
      split at hmem
      · split at hmem <;> try simp at hmem
        split at hmem <;> simp at hmem
      · rw [mem_walkList] at hmem
        obtain ⟨c, hc, hcm⟩ := hmem
        have hsz : sizeOf c < sizeOf (HNode.elem tag attrs children) := by
          have := List.sizeOf_lt_of_mem hc
          simp only [HNode.elem.sizeOf_spec]
          omega
        have hk' : sizeOf c ≤ k - 1 := by omega
        have hklt : k - 1 < k := by
          have : 1 ≤ sizeOf (HNode.elem tag attrs children) := by
            simp only [HNode.elem.sizeOf_spec]; omega
          omega
        have hmono := ih (k - 1) hklt c hk' (applyTag s (upper tag)) props hcm
        refine ⟨fun h => ?_, fun h => ?_, fun h => ?_⟩
        · exact hmono.1 (by rw [applyTag_bold, h]; simp)
        · exact hmono.2.1 (by rw [applyTag_italics, h]; simp)
        · exact hmono.2.2 (by rw [applyTag_underline, h]; simp)

theorem accumAt_walk (fetchFn : String → Option Bytes) :
    ∀ (p : List Nat) (node : HNode) (s : StyleAcc) (t : String) (acc : StyleAcc),
      accumAt node p s = some (t, acc) → t ≠ "" →
      mkTextRun t acc ∈ walk fetchFn node s := by
  intro p
  induction p with
  | nil =>
    intro node s t acc h hne
    cases node with
    | text u =>
      simp only [accumAt, Option.some.injEq, Prod.mk.injEq] at h
      obtain ⟨rfl, rfl⟩ := h
      simp [walk, hne]
    | elem tag attrs cs => simp [accumAt] at h
  | cons i p ih =>
    intro node s t acc h hne
    cases node with
    | text u => simp [accumAt] at h
    | elem tag attrs cs =>
      simp only [accumAt] at h
      split at h
      · simp at h
      · cases hg : cs.get? i with
        | none => rw [hg] at h; simp at h
        | some c =>
          rw [hg] at h
          have hm := ih c (applyTag s (upper tag)) t acc h hne
          simp only [walk]
          rw [if_neg (by simp_all)]
          exact mem_walkList_of_get? hg hm

theorem numbering_ref_invariant (fetchFn : String → Option Bytes) :
    ∀ k : Nat,
      (∀ node ctx, sizeOf node ≤ k → ∀ p ∈ processBlockNode fetchFn node ctx,
        (∀ r l, p.numbering = some (r, l) → r = "main-numbering") ∧
        (p.bullet.isSome = true → p.numbering = none)) ∧
      (∀ lis isOrd ref level, sizeOf lis ≤ k →
        (isOrd = true → ref = "main-numbering") →
        ∀ p ∈ processLis fetchFn lis isOrd ref level,
        (∀ r l, p.numbering = some (r, l) → r = "main-numbering") ∧
        (p.bullet.isSome = true → p.numbering = none)) ∧
      (∀ li isOrd ref level, sizeOf li ≤ k →
        (isOrd = true → ref = "main-numbering") →
        ∀ p ∈ processLi fetchFn li isOrd ref level,
        (∀ r l, p.numbering = some (r, l) → r = "main-numbering") ∧
        (p.bullet.isSome = true → p.numbering = none)) ∧
      (∀ cs ref level, sizeOf cs ≤ k →
        ∀ p ∈ processFirstNested fetchFn cs ref level,
        (∀ r l, p.numbering = some (r, l) → r = "main-numbering") ∧
        (p.bullet.isSome = true → p.numbering = none)) := by
  intro k
  induction k using Nat.strong_induction_on with
  | _ k ih =>
    refine ⟨?_, ?_, ?_, ?_⟩
    · intro node ctx hk p hp
      cases node with
      | text s => simp [processBlockNode] at hp
      | elem tag attrs children =>
        have hsz : sizeOf children < sizeOf (HNode.elem tag attrs children) := by
          simp only [HNode.elem.sizeOf_spec]; omega
        have hone : 1 ≤ sizeOf (HNode.elem tag attrs children) := by
          simp only [HNode.elem.sizeOf_spec]; omega
        simp only [processBlockNode] at hp
        split at hp
        · simp only [List.mem_singleton] at hp; subst hp; simp
        · split at hp
          · split at hp
            · simp only [List.mem_singleton] at hp; subst hp; simp
            · simp at hp
          · split at hp
            · refine ((ih (k - 1) (by omega)).2.1) children _ _ _ (by omega) ?_ p hp
              intro ho
              rw [if_pos ho]
            · split at hp
              · simp only [List.mem_singleton] at hp; subst hp; simp
              · split at hp
                · simp only [List.mem_singleton] at hp; subst hp; simp
                · split at hp
                  · split at hp
                    · split at hp
                      · simp only [List.mem_singleton] at hp; subst hp; simp
                      · simp at hp
                    · simp at hp
                  · simp at hp
    · intro lis isOrd ref level hk hside p hp
      cases lis with
      | nil => simp [processLis] at hp
      | cons li rest =>
        have hszcons : sizeOf (li :: rest) = 1 + sizeOf li + sizeOf rest := by
          simp only [List.cons.sizeOf_spec]
        have hli1 : 1 ≤ sizeOf li := by cases li <;> simp_arith
        simp only [processLis] at hp
        rw [List.mem_append] at hp
        rcases hp with hp | hp
        · exact (ih (k - 1) (by omega)).2.2.1 li isOrd ref level (by omega) hside p hp
        · exact (ih (k - 1) (by omega)).2.1 rest isOrd ref level (by omega) hside p hp
    · intro li isOrd ref level hk hside p hp
      cases li with
      | text s => simp [processLi] at hp
      | elem tag a cc =>
        have hsz : sizeOf cc < sizeOf (HNode.elem tag a cc) := by
          simp only [HNode.elem.sizeOf_spec]; omega
        have hone : 1 ≤ sizeOf (HNode.elem tag a cc) := by
          simp only [HNode.elem.sizeOf_spec]; omega
        simp only [processLi] at hp
        split at hp
        · rcases List.mem_cons.mp hp with rfl | hp
          · constructor
            · intro r l hnum
              cases isOrd with
              | true =>
                simp [liPara] at hnum
                rw [← hnum.1]
                exact hside rfl
              | false => simp [liPara] at hnum
            · intro hb
              cases isOrd with
              | true => simp [liPara] at hb
              | false => simp [liPara]
          · exact (ih (k - 1) (by omega)).2.2.2 cc ref level (by omega) p hp
        · simp at hp
    · intro cs ref level hk p hp
      cases cs with
      | nil => simp [processFirstNested] at hp
      | cons c cs =>
        have hszcons : sizeOf (c :: cs) = 1 + sizeOf c + sizeOf cs := by
          simp only [List.cons.sizeOf_spec]
        have hc1 : 1 ≤ sizeOf c := by cases c <;> simp_arith
        simp only [processFirstNested] at hp
        split at hp
        · exact (ih (k - 1) (by omega)).1 c _ (by omega) p hp
        · exact (ih (k - 1) (by omega)).2.2.2 cs ref level (by omega) p hp

theorem processFirstNested_eq_find? (fetchFn : String → Option Bytes)
    (cs : List HNode) (ref : String) (level : Nat) :
    processFirstNested fetchFn cs ref level =
      match cs.find? isListTag with
      | some nested => processBlockNode fetchFn nested (some (ref, level))
      | none => [] := by
  induction cs with
  | nil => simp [processFirstNested]
  | cons c cs ih =>
    by_cases h : isListTag c
    · simp [processFirstNested, List.find?_cons, h]
    · simp [processFirstNested, List.find?_cons, h, ih]

theorem exportBlocks_append (fetchFn : String → Option Bytes) (xs ys : List HNode) :
    exportBlocks fetchFn (xs ++ ys) = exportBlocks fetchFn xs ++ exportBlocks fetchFn ys := by
  simp [exportBlocks]

theorem exportBlocks_cons (fetchFn : String → Option Bytes) (n : HNode) (ns : List HNode) :
    exportBlocks fetchFn (n :: ns) =
      processBlockNode fetchFn n none ++ exportBlocks fetchFn ns := by
  simp [exportBlocks]

/-- C1: for title "Q1 Report" and the example body, the primary export path
produces exactly six blocks in order — the title heading block "Q1 Report", a
heading-1 block "Intro", a paragraph whose runs are "Hello " and bold "World",
bullet list items "One" and "Two" at level 0 and "Nested" at level 1 — and
every list item references the single shared bullet numbering identifier. -/
theorem c1_end_to_end_example :
    titlePara "Q1 Report" :: exportBlocks noFetch exampleBody =
      [ titlePara "Q1 Report",
        { children := [mkTextRun "Intro" {}], heading := some 1,
          spacingBefore := some 200, spacingAfter := some 200 },
        { children := [mkTextRun "Hello " {}, mkTextRun "World" { bold := true }],
          spacingAfter := some 120 },
        liPara [mkTextRun "One" {}] false "bullet-numbering" 0,
        liPara [mkTextRun "Two" {}] false "bullet-numbering" 0,
        liPara [mkTextRun "Nested" {}] false "bullet-numbering" 1 ] ∧
    ((exportBlocks noFetch exampleBody).filter
        (fun p => p.bullet.isSome || p.numbering.isSome)).map numberingRefOf =
      [some "default-bullet-numbering", some "default-bullet-numbering",
       some "default-bullet-numbering"] :=
  ⟨rfl, rfl⟩

/-- C2, counterexample: an H1 element whose inline-run extraction yields zero
runs still emits a heading block — the heading branch, unlike the
paragraph branch, never checks for emptiness. -/
theorem c2_empty_heading_still_emits_block :
    processBlockNode noFetch (HNode.elem "H1" [] []) none =
      [{ children := [], heading := some 1,
         spacingBefore := some 200, spacingAfter := some 200 }] :=
  rfl

/-- C2, amended: for paragraph and generic-container (P and DIV) elements whose
inline-run extraction yields zero runs, the block translator emits no output
block; heading elements, however, always emit a block, even with zero runs. -/
theorem c2_empty_paragraph_omitted (fetchFn : String → Option Bytes)
    (tag : String) (attrs : List (String × String)) (children : List HNode)
    (ctx : Option (String × Nat))
    (htag : upper tag = "P" ∨ upper tag = "DIV")
    (hruns : walkList fetchFn children {} = []) :
    processBlockNode fetchFn (.elem tag attrs children) ctx = [] := by
  have hhead : headingLevelOf (upper tag) = none := by
    rcases htag with h | h <;> rw [h] <;> rfl
  have hcond : (upper tag == "P" || upper tag == "DIV") = true := by
    rcases htag with h | h <;> rw [h] <;> rfl
  simp [processBlockNode, hhead, hcond, hruns]

/-- Witness for the amended C2 at a concrete empty paragraph. -/
theorem c2_empty_paragraph_omitted_witness :
    processBlockNode noFetch (HNode.elem "P" [] []) none = [] :=
  c2_empty_paragraph_omitted noFetch "P" [] [] none (Or.inl rfl) rfl

/-- C3: the numbering configuration declares exactly one explicit reference
(for all ordered lists); every emitted list-item paragraph references either
that identifier or the single shared built-in bullet identifier the serializer
assigns to bullet paragraphs; and two independent bulleted lists in one
document reference the identical bullet identifier. -/
theorem c3_two_numbering_identifiers :
    numberingConfigRefs = ["main-numbering"] ∧
    (∀ fetchFn nodes, ∀ p ∈ exportBlocks fetchFn nodes,
      (p.bullet.isSome = true ∨ p.numbering.isSome = true) →
      numberingRefOf p = some "main-numbering" ∨
        numberingRefOf p = some "default-bullet-numbering") ∧
    (exportBlocks noFetch twoBulletLists).map numberingRefOf =
      [some "default-bullet-numbering", some "default-bullet-numbering"] := by
  refine ⟨rfl, ?_, rfl⟩
  intro fetchFn nodes p hp hitem
  rw [exportBlocks, List.mem_flatMap] at hp
  obtain ⟨n, _, hpn⟩ := hp
  have hinv := (numbering_ref_invariant fetchFn (sizeOf n)).1 n none le_rfl p hpn
  rcases hnum : p.numbering with _ | ⟨r, l⟩
  · rcases hitem with hb | hno
    · right
      simp [numberingRefOf, hnum, hb]
    · rw [hnum] at hno
      simp at hno
  · left
    have hr := hinv.1 r l hnum
    simp [numberingRefOf, hnum, hr]

/-- Witness for C3 at the first item of a document with two bulleted lists. -/
theorem c3_two_numbering_identifiers_witness :
    numberingRefOf (liPara [mkTextRun "x" {}] false "bullet-numbering" 0) =
        some "main-numbering" ∨
      numberingRefOf (liPara [mkTextRun "x" {}] false "bullet-numbering" 0) =
        some "default-bullet-numbering" :=
  c3_two_numbering_identifiers.2.1 noFetch twoBulletLists _
    (List.mem_cons_self _ _) (Or.inl rfl)

/-- C4, counterexample: a four-deep ordered list emits an item at numbering
level 3, and the configuration defines no marker style at level 3 (while level
2 is lower-roman) — there is no clamping, so items deeper than level 2 do not
render lower-roman. -/
theorem c4_deep_level_has_no_style :
    (processBlockNode noFetch deepOrderedList none).map (fun p => p.numbering) =
      [some ("main-numbering", 0), some ("main-numbering", 1),
       some ("main-numbering", 2), some ("main-numbering", 3)] ∧
    levelStyle 3 = none ∧
    (levelStyle 2).map (fun l => l.format) = some "lowerRoman" :=
  ⟨rfl, rfl, rfl⟩

/-- C4, amended: ordered-list marker styles are decimal at level 0,
lower-letter at level 1 and lower-roman at level 2, each start-aligned; levels
3 and deeper have no configured marker style (the code performs no clamping,
items there reference undefined levels); bullet lists use a single marker
style at every depth. -/
theorem c4_marker_styles :
    (levelStyle 0).map (fun l => (l.format, l.alignment)) = some ("decimal", "start") ∧
    (levelStyle 1).map (fun l => (l.format, l.alignment)) = some ("lowerLetter", "start") ∧
    (levelStyle 2).map (fun l => (l.format, l.alignment)) = some ("lowerRoman", "start") ∧
    (∀ level, 3 ≤ level → levelStyle level = none) ∧
    (∀ l1 l2 : Nat, bulletLevelStyle l1 = bulletLevelStyle l2) := by
  refine ⟨rfl, rfl, rfl, ?_, fun _ _ => rfl⟩
  intro level h3
  obtain ⟨n, rfl⟩ : ∃ n, level = n + 3 := ⟨level - 3, by omega⟩
  rfl

/-- Witness for the amended C4 at level 5. -/
theorem c4_marker_styles_witness : levelStyle 5 = none :=
  c4_marker_styles.2.2.2.1 5 (by omega)

/-- C5, counterexample: a list item with two nested list children produces only
two blocks — the text of the second nested list is flattened into the parent
item's own runs ("A" and "C" in one block), and only the first nested list is
recursed into ("B" at level 1) — instead of the three blocks the claim's
partition-and-recurse-into-all description would give. -/
theorem c5_second_nested_list_flattened :
    processBlockNode noFetch twoNestedLists none =
      [ liPara [mkTextRun "A" {}, mkTextRun "C" {}] false "bullet-numbering" 0,
        liPara [mkTextRun "B" {}] false "bullet-numbering" 1 ] ∧
    (processBlockNode noFetch twoNestedLists none).length = 2 :=
  ⟨rfl, rfl⟩

/-- C5, amended: for every list item the translator finds only the item's
first nested list child; it emits one ListItem block from the item's content
with that first nested list removed, then recurses into that first nested list
only, immediately after the parent's block (pre-order), passing the enclosing
reference and level; a list element processed under context level l translates
its items at level l + 1 with the family determined by its own tag; items are
processed in document order. -/
theorem c5_first_nested_list_only (fetchFn : String → Option Bytes) :
    (∀ tag attrs cc isOrd ref level, upper tag = "LI" →
      processLi fetchFn (.elem tag attrs cc) isOrd ref level =
        liPara (walkList fetchFn
            (if cc.any isListTag then cc.eraseP isListTag else cc) {}) isOrd ref level
          :: (match cc.find? isListTag with
              | some nested => processBlockNode fetchFn nested (some (ref, level))
              | none => [])) ∧
    (∀ tag a cs r l, upper tag = "UL" ∨ upper tag = "OL" →
      processBlockNode fetchFn (.elem tag a cs) (some (r, l)) =
        processLis fetchFn cs (upper tag == "OL")
          (if upper tag == "OL" then "main-numbering" else "bullet-numbering") (l + 1)) ∧
    (∀ li rest isOrd ref level,
      processLis fetchFn (li :: rest) isOrd ref level =
        processLi fetchFn li isOrd ref level ++ processLis fetchFn rest isOrd ref level) := by
  refine ⟨?_, ?_, fun _ _ _ _ _ => rfl⟩
  · intro tag attrs cc isOrd ref level htag
    simp only [processLi, htag]
    rw [if_pos (show (("LI" : String) == "LI") = true from rfl), processFirstNested_eq_find?]
  · intro tag a cs r l htag
    have hhead : headingLevelOf (upper tag) = none := by
      rcases htag with h | h <;> rw [h] <;> rfl
    have hpd : (upper tag == "P" || upper tag == "DIV") = false := by
      rcases htag with h | h <;> rw [h] <;> rfl
    have hul : (upper tag == "UL" || upper tag == "OL") = true := by
      rcases htag with h | h <;> rw [h] <;> rfl
    simp [processBlockNode, hhead, hpd, hul]

/-- Witness for the amended C5 at a concrete item with one nested list. -/
theorem c5_first_nested_list_only_witness :
    processLi noFetch
        (HNode.elem "LI" []
          [HNode.text "A", HNode.elem "UL" [] [HNode.elem "LI" [] [HNode.text "B"]]])
        false "bullet-numbering" 0 =
      liPara (walkList noFetch
          (List.eraseP isListTag
            [HNode.text "A", HNode.elem "UL" [] [HNode.elem "LI" [] [HNode.text "B"]]]) {})
        false "bullet-numbering" 0
        :: processBlockNode noFetch
            (HNode.elem "UL" [] [HNode.elem "LI" [] [HNode.text "B"]])
            (some ("bullet-numbering", 0)) :=
  (c5_first_nested_list_only noFetch).1 "LI" []
    [HNode.text "A", HNode.elem "UL" [] [HNode.elem "LI" [] [HNode.text "B"]]]
    false "bullet-numbering" 0 rfl

/-- C6: resolving an embedded data payload whose base64 body is malformed
yields failure rather than bytes; a standalone image block whose resolution
fails contributes no output block; and the rest of the document exports
unchanged — the failure never aborts the export. -/
theorem c6_malformed_base64_recovered :
    (∀ fetchFn url b64, strStartsWith url "data:" = true →
        (splitOnChar ',' url)[1]? = some b64 → atob b64 = none →
        getFileBuffer fetchFn url = none) ∧
    (∀ (fetchFn : String → Option Bytes) (attrs : List (String × String)) src cs ctx,
        getAttr attrs "src" = some src → getFileBuffer fetchFn src = none →
        processBlockNode fetchFn (.elem "IMG" attrs cs) ctx = []) ∧
    (∀ (fetchFn : String → Option Bytes) attrs src cs pre post,
        getAttr attrs "src" = some src → getFileBuffer fetchFn src = none →
        exportBlocks fetchFn (pre ++ HNode.elem "IMG" attrs cs :: post) =
          exportBlocks fetchFn (pre ++ post)) := by
  have himg : ∀ (fetchFn : String → Option Bytes) (attrs : List (String × String)) src cs ctx,
      getAttr attrs "src" = some src → getFileBuffer fetchFn src = none →
      processBlockNode fetchFn (.elem "IMG" attrs cs) ctx = [] := by
    intro fetchFn attrs src cs ctx h1 h2
    have e0 : headingLevelOf (upper "IMG") = none := rfl
    have e1 : ((upper "IMG") == "P" || (upper "IMG") == "DIV") = false := rfl
    have e2 : ((upper "IMG") == "UL" || (upper "IMG") == "OL") = false := rfl
    have e3 : ((upper "IMG") == "BLOCKQUOTE") = false := rfl
    have e4 : ((upper "IMG") == "HR") = false := rfl
    have e5 : ((upper "IMG") == "IMG") = true := rfl
    simp [processBlockNode, e0, e1, e2, e3, e4, e5, h1, h2]
  refine ⟨?_, himg, ?_⟩
  · intro fetchFn url b64 h1 h2 h3
    simp only [getFileBuffer]
    rw [if_pos h1, h2]
    exact h3
  · intro fetchFn attrs src cs pre post h1 h2
    rw [exportBlocks_append, exportBlocks_append, exportBlocks_cons,
      himg fetchFn attrs src cs none h1 h2]
    simp

/-- Witness for C6 at a concrete malformed embedded payload inside a
document that still exports its other blocks. -/
theorem c6_malformed_base64_recovered_witness :
    getFileBuffer noFetch badDataUrl = none ∧
    exportBlocks noFetch
        ([HNode.elem "H1" [] [HNode.text "t"]] ++
          HNode.elem "IMG" [("src", badDataUrl)] [] ::
            [HNode.elem "P" [] [HNode.text "q"]]) =
      exportBlocks noFetch
        ([HNode.elem "H1" [] [HNode.text "t"]] ++ [HNode.elem "P" [] [HNode.text "q"]]) :=
  ⟨c6_malformed_base64_recovered.1 noFetch badDataUrl "@@@@" rfl rfl rfl,
   c6_malformed_base64_recovered.2.2 noFetch [("src", badDataUrl)] badDataUrl [] _ _ rfl
     (c6_malformed_base64_recovered.1 noFetch badDataUrl "@@@@" rfl rfl rfl)⟩

/-- C7, counterexample: in the flat export mode a standalone image block whose
resolution fails is silently dropped — the output holds only the title
paragraph and no textual placeholder block appears. -/
theorem c7_flat_image_failure_dropped :
    Flat.exportDocToDocx (fun _ => []) noFetch (fun _ => none) "T"
        [{ id := "1", type := "image", content := badDataUrl, mimeType := some "image/png" }] =
      [Flat.titlePara "T"] :=
  rfl

/-- C7, amended: in the flat-list export mode the textual placeholder carrying
the declared media type replaces a video block whose frame capture fails;
an image block whose resolution fails is silently dropped, as in the primary
path. -/
theorem c7_flat_placeholder_video_only (parse : String → List HNode)
    (fetchFn capture : String → Option Bytes) (block : ContentBlock) :
    (block.type = "video" → capture block.content = none →
      Flat.blockParas parse fetchFn capture block =
        [{ text := some ("[Video Attachment: " ++ Flat.mimeTypeLabel block.mimeType ++ "]"),
           spacingAfter := some 300 }]) ∧
    (block.type = "image" → getFileBuffer fetchFn block.content = none →
      Flat.blockParas parse fetchFn capture block = []) := by
  constructor
  · intro ht hc
    have h1 : (block.type == "text") = false := by rw [ht]; rfl
    have h2 : (block.type == "image") = false := by rw [ht]; rfl
    have h3 : (block.type == "video") = true := by rw [ht]; rfl
    simp [Flat.blockParas, h1, h2, h3, hc]
  · intro ht hf
    have h1 : (block.type == "text") = false := by rw [ht]; rfl
    have h2 : (block.type == "image") = true := by rw [ht]; rfl
    simp [Flat.blockParas, h1, h2, hf]

/-- Witness for the amended C7 at a concrete video block whose capture fails. -/
theorem c7_flat_placeholder_video_only_witness :
    Flat.blockParas (fun _ => []) noFetch (fun _ => none)
        { id := "2", type := "video", content := "blob:v", mimeType := some "video/mp4" } =
      [{ text := some ("[Video Attachment: " ++ Flat.mimeTypeLabel (some "video/mp4") ++ "]"),
         spacingAfter := some 300 }] :=
  (c7_flat_placeholder_video_only (fun _ => []) noFetch (fun _ => none) _).1 rfl rfl

/-- C8: the style accumulator of the inline run builder is only ever extended
— a style set on the path is never cleared below it (part 1); sibling subtrees
are walked independently under the same incoming accumulator, so neither sees
the other's state (part 2); and each non-empty text leaf yields a run stamped
with exactly the accumulator in force at its position, i.e. the incoming
accumulator extended by every wrapper tag on the path to the leaf (part 3,
where `accumAt` spells out the spec's path-accumulator). -/
theorem c8_style_accumulator :
    (∀ fetchFn node s props, Run.text props ∈ walk fetchFn node s →
      (s.bold = true → props.bold = true) ∧
      (s.italics = true → props.italics = true) ∧
      (s.underline = true → props.underline = true)) ∧
    (∀ fetchFn xs ys s, walkList fetchFn (xs ++ ys) s =
      walkList fetchFn xs s ++ walkList fetchFn ys s) ∧
    (∀ fetchFn node p s t acc, accumAt node p s = some (t, acc) → t ≠ "" →
      mkTextRun t acc ∈ walk fetchFn node s) :=
  ⟨fun fetchFn node s props h => walk_style_mono fetchFn (sizeOf node) node le_rfl s props h,
   walkList_append,
   fun fetchFn node p s t acc h hne => accumAt_walk fetchFn p node s t acc h hne⟩

/-- Witness for C8: the run of a leaf under an EM wrapper carries exactly the
italics extension of the empty accumulator. -/
theorem c8_style_accumulator_witness :
    mkTextRun "x" { italics := true } ∈
      walk noFetch (HNode.elem "EM" [] [HNode.text "x"]) {} :=
  c8_style_accumulator.2.2 noFetch (HNode.elem "EM" [] [HNode.text "x"]) [0] {} "x"
    { italics := true } rfl (by decide)

/-- C9, counterexample: a video that never fires a load event but fires an
error event at 1000 ms resolves failure at 1000 ms, before the 5000 ms
timeout — so capture does not always take the full fixed timeout. -/
theorem c9_error_resolves_before_timeout :
    (([(1000, Flat.VideoEvent.error)] : List (Nat × Flat.VideoEvent)).all
        (fun e => !(e.2 == Flat.VideoEvent.loadeddata))) = true ∧
    Flat.captureVideoFrame { events := [(1000, Flat.VideoEvent.error)] } = (1000, none) ∧
    (1000 : Nat) ≠ 5000 :=
  ⟨rfl, rfl, by decide⟩

/-- C9, amended: a video resource that fires neither a load event nor an error
event resolves failure exactly at the fixed 5000 ms timeout — never earlier
and never hanging — and the caller receives a failure value, not an
exception (the model is a total function). -/
theorem c9_timeout_exact_when_no_events (env : Flat.VideoEnv)
    (hload : ∀ e ∈ env.events, e.2 ≠ Flat.VideoEvent.loadeddata)
    (herr : ∀ e ∈ env.events, e.2 ≠ Flat.VideoEvent.error) :
    Flat.captureVideoFrame env = (5000, none) := by
  have hnil : env.events = [] := by
    cases henv : env.events with
    | nil => rfl
    | cons e es =>
      exfalso
      have h1 := hload e (by rw [henv]; exact List.mem_cons_self e es)
      have h2 := herr e (by rw [henv]; exact List.mem_cons_self e es)
      cases he : e.2 <;> simp_all
  simp [Flat.captureVideoFrame, Flat.firstEvent, hnil]

/-- Witness for the amended C9 at an event-free environment. -/
theorem c9_timeout_exact_when_no_events_witness :
    Flat.captureVideoFrame { events := [] } = (5000, none) :=
  c9_timeout_exact_when_no_events { events := [] } (by simp) (by simp)

/-- C10: in the primary export path the output is a function of the title and
the first content block's content only — any two block lists with the same
element at index 0 (indeed, with the same head content) export identically,
the tail is ignored — and the empty block list yields the title block alone. -/
theorem c10_only_first_block_used (parse : String → List HNode)
    (fetchFn : String → Option Bytes) (title : String) :
    (∀ b1 b2 : List ContentBlock,
        b1.head?.map (fun b => b.content) = b2.head?.map (fun b => b.content) →
        exportDocToDocx parse fetchFn title b1 = exportDocToDocx parse fetchFn title b2) ∧
    (∀ b rest rest', exportDocToDocx parse fetchFn title (b :: rest) =
        exportDocToDocx parse fetchFn title (b :: rest')) ∧
    (parse "" = [] → exportDocToDocx parse fetchFn title [] = [titlePara title]) := by
  refine ⟨?_, ?_, ?_⟩
  · intro b1 b2 h
    simp only [exportDocToDocx, h]
  · intro b rest rest'
    simp only [exportDocToDocx, List.head?_cons]
  · intro hparse
    simp [exportDocToDocx, hparse, exportBlocks]

/-- Witness for C10: two one-block lists sharing the head content but nothing
else export identically, and the empty list gives only the title. -/
theorem c10_only_first_block_used_witness :
    exportDocToDocx (fun _ => []) noFetch "t"
        [{ id := "a", type := "text", content := "X" }] =
      exportDocToDocx (fun _ => []) noFetch "t"
        [{ id := "b", type := "image", content := "X", mimeType := some "image/png" }] ∧
    exportDocToDocx (fun _ => []) noFetch "t" [] = [titlePara "t"] :=
  ⟨(c10_only_first_block_used (fun _ => []) noFetch "t").1 _ _ rfl,
   (c10_only_first_block_used (fun _ => []) noFetch "t").2.2 rfl⟩

end DocxExport
